import Mathlib

/-!
Shallow embedding of the "AI-Powered PDF Renamer" single-page application
(`src/types.ts` and the main application component in `src/unnamed/part_000`).

The application is pure state orchestration: an upload handler populates a
list of file records, a sequential loop drives each record to a terminal
status using two external services (PDF text extraction and filename
derivation), and an archive builder packages the Success records into a zip.

Modelling choices:
* JavaScript strings are Lean `String`s (in this toolchain a `String` wraps a
  `List Char`, which matches the sequence-of-code-points view used here).
* The number-to-string conversions performed by JS template literals
  (`${file.lastModified}`, `${count}`, `${files.length}`) are modelled by
  `Nat.repr`, the decimal representation.
* The two external collaborators `extractTextFromPdf` and `getNewFilename`
  are parameters of the processing loop, returning `Except String String`:
  `.error e` models a rejected promise carrying message `e`, `.ok s` a
  resolved one.  A resolved empty string models the falsy result checked by
  `if (!text)` / `if (newName)`.
* A `File` (browser object) is modelled by its name, its `lastModified`
  timestamp and an opaque payload string.
* `LogEntry.id` in the source is `Date.now() + Math.random()`, a
  display-only nondeterministic field; the log is modelled as the list of
  (message, severity) pairs in append order.
* The zip library call `zip.generateAsync` (and the subsequent DOM download
  steps) can reject; this is modelled by an `Option String` parameter:
  `some e` means the construction throws with message `e`.  The archive
  itself is modelled as the ordered list of `zip.file(finalName, payload)`
  calls.
-/

namespace PdfRenamer

/-- `FileProcessStatus` from `src/types.ts`. -/
inductive FileProcessStatus where
  | Idle
  | Processing
  | Success
  | Error
  | NoMatch
deriving DecidableEq, Repr

/-- Severity tag of a log entry (`'info' | 'error' | 'success'`). -/
inductive LogType where
  | info
  | error
  | success
deriving DecidableEq, Repr

/-- A log entry: message plus severity (`LogEntry` from `src/types.ts`,
with the display-only random `id` field omitted). -/
structure LogEntry where
  message : String
  type : LogType
deriving DecidableEq, Repr

/-- A browser `File`: name, `lastModified` timestamp, opaque binary payload. -/
structure FileObj where
  name : String
  lastModified : Nat
  content : String
deriving DecidableEq, Repr

/-- `ProcessedFile` from `src/types.ts`. -/
structure ProcessedFile where
  id : String
  originalFile : FileObj
  originalName : String
  newName : String
  status : FileProcessStatus
  message : Option String := none
deriving DecidableEq, Repr

/-- The `App` component state relevant to the claims: the `results`,
`logs` and `isProcessing` `useState` hooks.  (The rename-method
configuration is abstracted into the naming oracle passed to the loop.) -/
structure AppState where
  results : List ProcessedFile
  logs : List LogEntry
  isProcessing : Bool
deriving DecidableEq, Repr

/-- `addLog` (lines 23-25): append one entry to the log. -/
def addLog (logs : List LogEntry) (message : String) (type : LogType) : List LogEntry :=
  logs ++ [{ message := message, type := type }]

/-- One record of the freshly uploaded batch
(`handleFilesSelected`, the `files.map` body at lines 29-35):
`id` is the template literal `` `${file.name}-${file.lastModified}` ``. -/
def mkRecord (f : FileObj) : ProcessedFile :=
  { id := f.name ++ "-" ++ Nat.repr f.lastModified
    originalFile := f
    originalName := f.name
    newName := ""
    status := FileProcessStatus.Idle
    message := none }

/-- `handleFilesSelected` (lines 27-39): an empty selection returns at once;
otherwise the batch is replaced, the log cleared, and the load message
appended. -/
def handleFilesSelected (files : List FileObj) (s : AppState) : AppState :=
  if files.length = 0 then s
  else
    { s with
      results := files.map mkRecord
      logs := [⟨ "Loaded " ++ Nat.repr files.length ++ " PDF file(s). Ready for processing.",
                 LogType.info ⟩] }

/-- The in-loop reset (lines 65-66): status to `Processing`, `newName`
cleared.  Note the `message` field is not touched. -/
def resetRecord (r : ProcessedFile) : ProcessedFile :=
  { r with status := FileProcessStatus.Processing, newName := "" }

/-- The `try`/`catch` body of one loop iteration (lines 71-92):
extraction, the falsy-text check, the naming call, and the three outcomes. -/
def runPipeline (extract : FileObj → Except String String)
    (getName : String → Except String String) (r : ProcessedFile) : ProcessedFile :=
  match extract r.originalFile with
  | Except.error e => { r with status := FileProcessStatus.Error, message := some e }
  | Except.ok text =>
    if text = "" then
      { r with status := FileProcessStatus.Error,
               message := some "Could not extract text from PDF." }
    else
      match getName text with
      | Except.error e => { r with status := FileProcessStatus.Error, message := some e }
      | Except.ok newName =>
        if newName = "" then { r with status := FileProcessStatus.NoMatch }
        else { r with newName := newName ++ ".pdf", status := FileProcessStatus.Success }

/-- One full loop iteration on a record: reset, then the pipeline. -/
def processOne (extract : FileObj → Except String String)
    (getName : String → Except String String) (r : ProcessedFile) : ProcessedFile :=
  runPipeline extract getName (resetRecord r)

/-- The log entry emitted for a finished record (lines 82, 85, 91),
computed from the record after its iteration. -/
def outcomeLog (r' : ProcessedFile) : LogEntry :=
  match r'.status with
  | FileProcessStatus.Success =>
      ⟨ "Found name for " ++ r'.originalName ++ " -> " ++ r'.newName, LogType.success ⟩
  | FileProcessStatus.Error =>
      ⟨ "Error processing " ++ r'.originalName ++ ": " ++ r'.message.getD "", LogType.error ⟩
  | _ => ⟨ "No match found for: " ++ r'.originalName, LogType.error ⟩

/-- The `for` loop of `processFiles` (lines 61-94), threading the log. -/
def processLoop (extract : FileObj → Except String String)
    (getName : String → Except String String) :
    List ProcessedFile → List LogEntry → List ProcessedFile × List LogEntry
  | [], logs => ([], logs)
  | r :: rest, logs =>
    let r' := processOne extract getName r
    let logs' := addLog logs ("Processing: " ++ r.originalName) LogType.info
      ++ [outcomeLog r']
    let out := processLoop extract getName rest logs'
    (r' :: out.1, out.2)

/-- Whether the regex test `/\.pdf$/` matches: the string ends with ".pdf". -/
def endsWithPdf (s : String) : Bool :=
  decide (s.data.reverse.take 4 = [ 'f', 'd', 'p', '.' ])

/-- `finalName.replace(/\.pdf$/, '')` (line 125): drop a trailing ".pdf"
when present, otherwise leave the string unchanged. -/
def stripPdf (s : String) : String :=
  if endsWithPdf s then String.mk (s.data.take (s.data.length - 4)) else s

/-- The duplicate-name loop of `handleDownloadZip` (lines 119-132).  The
`nameCounts` object is modelled as a total function that is `0` outside its
domain (entries are only ever set to values `≥ 1`, so JS truthiness of
`nameCounts[finalName]` coincides with the count being nonzero).  Returns
the `zip.file(finalName, payload)` calls in order. -/
def zipLoop : List ProcessedFile → (String → Nat) → List (String × FileObj)
  | [], _ => []
  | r :: rest, counts =>
    let c := counts r.newName
    if c ≠ 0 then
      (stripPdf r.newName ++ "_" ++ Nat.repr c ++ ".pdf", r.originalFile)
        :: zipLoop rest (fun n => if n = r.newName then c + 1 else counts n)
    else
      (r.newName, r.originalFile)
        :: zipLoop rest (fun n => if n = r.newName then 1 else counts n)

/-- The archive contents built from the eligible records (lines 116-132). -/
def buildArchive (filesToZip : List ProcessedFile) : List (String × FileObj) :=
  zipLoop filesToZip (fun _ => 0)

/-- `results.filter(r => r.status === FileProcessStatus.Success)` (line 106). -/
def successRecords (s : AppState) : List ProcessedFile :=
  s.results.filter (fun r => decide (r.status = FileProcessStatus.Success))

/-- `handleDownloadZip` (lines 105-148).  `zipFail = some e` models the
zip-construction/download steps throwing with message `e`; `none` models
success.  Returns the new state and the archive produced, if any. -/
def handleDownloadZip (zipFail : Option String) (s : AppState) :
    AppState × Option (List (String × FileObj)) :=
  let filesToZip := successRecords s
  if filesToZip.length = 0 then
    ({ s with logs :=
        (addLog s.logs "No files were successfully renamed to include in a ZIP."
          LogType.error) }, none)
  else
    let s1 := { s with
      logs := (addLog s.logs
        ("Creating ZIP archive with " ++ Nat.repr filesToZip.length ++ " files...")
        LogType.info)
      isProcessing := true }
    match zipFail with
    | some e =>
      ({ s1 with
          logs := addLog s1.logs ("Failed to create ZIP file: " ++ e) LogType.error
          isProcessing := false }, none)
    | none =>
      ({ s1 with
          logs := addLog s1.logs "ZIP file download initiated." LogType.success
          isProcessing := false }, some (buildArchive filesToZip))

/-- `processFiles` (lines 46-102).  The guard on an empty batch returns
before any other state change; otherwise the loop runs over every record
and, unless `previewOnly`, `handleDownloadZip` follows.  (The zip step
reads the same record objects the loop mutated in place, so threading the
post-loop state is faithful.) -/
def processFiles (extract : FileObj → Except String String)
    (getName : String → Except String String) (zipFail : Option String)
    (previewOnly : Bool) (s : AppState) :
    AppState × Option (List (String × FileObj)) :=
  if s.results.length = 0 then
    ({ s with logs :=
        addLog s.logs "No files to process. Please upload PDFs first." LogType.error }, none)
  else
    let startLog : LogEntry :=
      if previewOnly then ⟨ "Starting rename PREVIEW...", LogType.info ⟩
      else ⟨ "Starting file processing for download...", LogType.info ⟩
    let out := processLoop extract getName s.results (s.logs ++ [startLog])
    let s1 : AppState :=
      { results := out.1
        logs := addLog out.2 "Processing complete." LogType.info
        isProcessing := false }
    if previewOnly then (s1, none) else handleDownloadZip zipFail s1

/-! ### Specification-side definitions

`specName`/`specNames` restate the collision rule exactly as the spec words
it ("first occurrence keeps the bare name, subsequent duplicates get `_1`,
`_2`, …"): the final name of a record is determined by how many earlier
records of the eligible sequence carry the same computed name.  They are
compared against `buildArchive`, the embedding of the source loop. -/

/-- Decimal digit list (little-endian) of `n`, with `0` rendered as `[0]`;
the digit sequence underlying the JS decimal rendering of a number. -/
def decimalDigits (n : Nat) : List Nat :=
  if n = 0 then [0] else Nat.digits 10 n

/-- The spec's collision rule for one record: given the computed names of
the earlier records (`pre`), a first occurrence keeps the bare name and the
k-th subsequent duplicate gets `_k` inserted before the extension. -/
def specName (pre : List String) (n : String) : String :=
  if pre.count n = 0 then n
  else stripPdf n ++ "_" ++ Nat.repr (pre.count n) ++ ".pdf"

/-- The spec's collision rule over the whole eligible sequence. -/
def specNames (pre : List String) : List ProcessedFile → List (String × FileObj)
  | [] => []
  | r :: rest =>
    (specName pre r.newName, r.originalFile) :: specNames (pre ++ [r.newName]) rest

/-- The spec's collision rule on the computed names alone. -/
def specNameList (pre : List String) : List String → List String
  | [] => []
  | n :: rest => specName pre n :: specNameList (pre ++ [n]) rest

/-! ### Concrete objects used by witnesses and counterexamples -/

/-- An extraction oracle that always succeeds with fixed text. -/
def exOk : FileObj → Except String String := fun _ => Except.ok "Invoice No: A-1"

/-- A naming oracle that always returns the fixed candidate "A-1". -/
def gnOk : String → Except String String := fun _ => Except.ok "A-1"

/-- A processed record with a given payload and computed name, in Success
status (as left by a completed run). -/
def doneRecord (f : FileObj) (nm : String) : ProcessedFile :=
  { id := f.name ++ "-" ++ Nat.repr f.lastModified
    originalFile := f
    originalName := f.name
    newName := nm
    status := FileProcessStatus.Success
    message := none }

/-- A batch whose computed names are `a_1.pdf`, `a.pdf`, `a.pdf`: the bare
name of the first record textually equals the suffixed form the third one
receives. -/
def collisionState : AppState :=
  { results :=
      [ doneRecord ⟨ "f1.pdf", 1, "P1" ⟩ "a_1.pdf"
      , doneRecord ⟨ "f2.pdf", 2, "P2" ⟩ "a.pdf"
      , doneRecord ⟨ "f3.pdf", 3, "P3" ⟩ "a.pdf" ]
    logs := []
    isProcessing := false }

/-- A batch of two Success records that both computed `a.pdf`. -/
def twinState : AppState :=
  { results :=
      [ doneRecord ⟨ "f1.pdf", 1, "P1" ⟩ "a.pdf"
      , doneRecord ⟨ "f2.pdf", 2, "P2" ⟩ "a.pdf" ]
    logs := []
    isProcessing := false }

/-- A freshly uploaded one-record batch. -/
def idleState : AppState :=
  { results := [ mkRecord ⟨ "doc.pdf", 7, "PAYLOAD" ⟩ ]
    logs := []
    isProcessing := false }

/-- A state with no records at all. -/
def emptyState : AppState :=
  { results := [], logs := [ ⟨ "old entry", LogType.info ⟩ ], isProcessing := false }

/-- A state whose only record failed. -/
def failedState : AppState :=
  { results :=
      [ { id := "doc.pdf-7"
          originalFile := ⟨ "doc.pdf", 7, "PAYLOAD" ⟩
          originalName := "doc.pdf"
          newName := ""
          status := FileProcessStatus.Error
          message := some "Could not extract text from PDF." } ]
    logs := []
    isProcessing := false }

/-- A record carrying a stale error message from an earlier run together
with a Success status context. -/
def staleRecord : ProcessedFile :=
  { id := "doc.pdf-7"
    originalFile := ⟨ "doc.pdf", 7, "PAYLOAD" ⟩
    originalName := "doc.pdf"
    newName := ""
    status := FileProcessStatus.Error
    message := some "old failure" }

/-- The same record without the stale message. -/
def freshRecord : ProcessedFile :=
  { staleRecord with message := none }

/-- Two distinct uploaded files that agree on name and modification time. -/
def dupFile1 : FileObj := ⟨ "a.pdf", 5, "P1" ⟩

/-- Second of the two clashing files. -/
def dupFile2 : FileObj := ⟨ "a.pdf", 5, "P2" ⟩

/-! ### String and decimal-representation lemmas -/

theorem data_append (s t : String) : (s ++ t).data = s.data ++ t.data := by
  cases s; cases t; rfl

theorem toDigitsCore_spec :
    ∀ (n fuel : Nat) (acc : List Char), n < fuel →
      Nat.toDigitsCore 10 fuel n acc = (decimalDigits n).reverse.map Nat.digitChar ++ acc := by
  intro n
  induction n using Nat.strong_induction_on with
  | _ n ih =>
    intro fuel acc hlt
    match fuel with
    | 0 => exact absurd hlt (Nat.not_lt_zero n)
    | f + 1 =>
      rw [Nat.toDigitsCore]
      by_cases h10 : n / 10 = 0
      · rw [if_pos h10]
        by_cases hn : n = 0
        · simp [decimalDigits, hn]
        · have hpos : 0 < n := Nat.pos_of_ne_zero hn
          have e1 : decimalDigits n = n % 10 :: Nat.digits 10 (n / 10) := by
            rw [decimalDigits, if_neg hn, Nat.digits_def' (by norm_num) hpos]
          rw [e1, h10]
          simp
      · rw [if_neg h10]
        have hn : n ≠ 0 := by
          intro h; exact h10 (by simp [h])
        have hdiv : n / 10 < n := Nat.div_lt_self (Nat.pos_of_ne_zero hn) (by norm_num)
        rw [ih (n / 10) hdiv f _ (by omega)]
        have e1 : decimalDigits n = n % 10 :: Nat.digits 10 (n / 10) := by
          rw [decimalDigits, if_neg hn, Nat.digits_def' (by norm_num) (Nat.pos_of_ne_zero hn)]
        have e2 : decimalDigits (n / 10) = Nat.digits 10 (n / 10) := by
          rw [decimalDigits, if_neg h10]
        rw [e1, e2]
        simp

theorem repr_data (n : Nat) :
    (Nat.repr n).data = (decimalDigits n).reverse.map Nat.digitChar := by
  show (Nat.toDigitsCore 10 (n + 1) n []).asString.data = _
  rw [toDigitsCore_spec n (n + 1) [] (Nat.lt_succ_self n)]
  simp [List.asString]

theorem decimalDigits_lt (n : Nat) : ∀ d ∈ decimalDigits n, d < 10 := by
  intro d hd
  rw [decimalDigits] at hd
  split at hd
  · simp at hd; omega
  · exact Nat.digits_lt_base (by norm_num) hd

theorem digitChar_inj_lt : ∀ a < 10, ∀ b < 10, Nat.digitChar a = Nat.digitChar b → a = b := by
  decide

theorem digitChar_digits : ∀ d < 10,
    Nat.digitChar d ∈ [ '0', '1', '2', '3', '4', '5', '6', '7', '8', '9' ] := by
  decide

theorem repr_chars (n : Nat) :
    ∀ c ∈ (Nat.repr n).data, c ∈ [ '0', '1', '2', '3', '4', '5', '6', '7', '8', '9' ] := by
  intro c hc
  rw [repr_data] at hc
  simp only [List.mem_map, List.mem_reverse] at hc
  obtain ⟨d, hd, rfl⟩ := hc
  exact digitChar_digits d (decimalDigits_lt n d hd)

theorem mapDigit_inj : ∀ (l1 l2 : List Nat), (∀ x ∈ l1, x < 10) → (∀ x ∈ l2, x < 10) →
    l1.map Nat.digitChar = l2.map Nat.digitChar → l1 = l2 := by
  intro l1
  induction l1 with
  | nil => intro l2 _ _ h; cases l2 <;> simp_all
  | cons a t ih =>
    intro l2 h1 h2 heq
    cases l2 with
    | nil => simp at heq
    | cons b t' =>
      simp only [List.map_cons, List.cons.injEq] at heq
      have ha : a = b := digitChar_inj_lt a (h1 a (by simp)) b (h2 b (by simp)) heq.1
      have ht : t = t' :=
        ih t' (fun x hx => h1 x (by simp [hx])) (fun x hx => h2 x (by simp [hx])) heq.2
      rw [ha, ht]

theorem decimalDigits_inj : ∀ a b : Nat, decimalDigits a = decimalDigits b → a = b := by
  intro a b h
  rw [decimalDigits, decimalDigits] at h
  split at h <;> split at h
  · omega
  · next ha hb =>
      have := congrArg (Nat.ofDigits 10) h
      rw [Nat.ofDigits_digits] at this
      simp [Nat.ofDigits] at this
      omega
  · next ha hb =>
      have := congrArg (Nat.ofDigits 10) h
      rw [Nat.ofDigits_digits] at this
      simp [Nat.ofDigits] at this
      omega
  · next ha hb =>
      have := congrArg (Nat.ofDigits 10) h
      rw [Nat.ofDigits_digits, Nat.ofDigits_digits] at this
      exact this

theorem repr_inj : ∀ a b : Nat, Nat.repr a = Nat.repr b → a = b := by
  intro a b h
  have hd := congrArg String.data h
  rw [repr_data, repr_data] at hd
  exact decimalDigits_inj a b
    (List.reverse_injective (mapDigit_inj _ _
      (fun x hx => decimalDigits_lt a x (List.mem_reverse.mp hx))
      (fun x hx => decimalDigits_lt b x (List.mem_reverse.mp hx)) hd))

theorem markerSplitLeft {c : Char} :
    ∀ (as as' bs bs' : List Char), c ∉ as → c ∉ as' →
      as ++ c :: bs = as' ++ c :: bs' → as = as' ∧ bs = bs' := by
  intro as
  induction as with
  | nil =>
    intro as' bs bs' _ h2 heq
    cases as' with
    | nil => simpa using heq
    | cons a t =>
      simp only [List.nil_append, List.cons_append, List.cons.injEq] at heq
      exact absurd (by simp [heq.1]) h2
  | cons a t ih =>
    intro as' bs bs' h1 h2 heq
    cases as' with
    | nil =>
      simp only [List.cons_append, List.nil_append, List.cons.injEq] at heq
      exact absurd (by simp [heq.1]) h1
    | cons a' t' =>
      simp only [List.cons_append, List.cons.injEq] at heq
      obtain ⟨rfl, heq2⟩ := heq
      have := ih t' bs bs' (fun h => h1 (by simp [h])) (fun h => h2 (by simp [h])) heq2
      exact ⟨by rw [this.1], this.2⟩

theorem markerSplitRight {c : Char} (as as' bs bs' : List Char)
    (h1 : c ∉ bs) (h2 : c ∉ bs')
    (heq : as ++ c :: bs = as' ++ c :: bs') : as = as' ∧ bs = bs' := by
  have hrev := congrArg List.reverse heq
  simp only [List.reverse_append, List.reverse_cons] at hrev
  have hrev' : bs.reverse ++ c :: as.reverse = bs'.reverse ++ c :: as'.reverse := by
    simpa [List.append_assoc] using hrev
  have := markerSplitLeft bs.reverse bs'.reverse as.reverse as'.reverse
    (by simpa using h1) (by simpa using h2) hrev'
  constructor
  · exact List.reverse_injective this.2
  · exact List.reverse_injective this.1

theorem repr_no_underscore (n : Nat) : '_' ∉ (Nat.repr n).data := by
  intro h
  have := repr_chars n '_' h
  simp at this

theorem repr_no_dash (n : Nat) : '-' ∉ (Nat.repr n).data := by
  intro h
  have := repr_chars n '-' h
  simp at this

/-- Injectivity of the `` `${name}-${lastModified}` `` identity template. -/
theorem fileId_inj (n1 n2 : String) (t1 t2 : Nat)
    (h : n1 ++ "-" ++ Nat.repr t1 = n2 ++ "-" ++ Nat.repr t2) : n1 = n2 ∧ t1 = t2 := by
  have hd := congrArg String.data h
  simp only [data_append] at hd
  have hd' : n1.data ++ '-' :: (Nat.repr t1).data = n2.data ++ '-' :: (Nat.repr t2).data := by
    have e : ("-" : String).data = [ '-' ] := rfl
    simpa [e, List.append_assoc] using hd
  have := markerSplitRight _ _ _ _ (repr_no_dash t1) (repr_no_dash t2) hd'
  exact ⟨String.ext this.1, repr_inj t1 t2 (String.ext this.2)⟩

/-- Injectivity of the `` `${base}_${count}.pdf` `` suffix template. -/
theorem suffix_inj (b1 b2 : String) (k1 k2 : Nat)
    (h : b1 ++ "_" ++ Nat.repr k1 ++ ".pdf" = b2 ++ "_" ++ Nat.repr k2 ++ ".pdf") :
    b1 = b2 ∧ k1 = k2 := by
  have hd := congrArg String.data h
  simp only [data_append] at hd
  have hd' : b1.data ++ '_' :: ((Nat.repr k1).data ++ (".pdf" : String).data)
      = b2.data ++ '_' :: ((Nat.repr k2).data ++ (".pdf" : String).data) := by
    have e : ("_" : String).data = [ '_' ] := rfl
    simpa [e, List.append_assoc] using hd
  have hnm1 : '_' ∉ (Nat.repr k1).data ++ (".pdf" : String).data := by
    intro hmem
    rcases List.mem_append.mp hmem with hmem | hmem
    · exact repr_no_underscore k1 hmem
    · simp [show (".pdf" : String).data = [ '.', 'p', 'd', 'f' ] from rfl] at hmem
  have hnm2 : '_' ∉ (Nat.repr k2).data ++ (".pdf" : String).data := by
    intro hmem
    rcases List.mem_append.mp hmem with hmem | hmem
    · exact repr_no_underscore k2 hmem
    · simp [show (".pdf" : String).data = [ '.', 'p', 'd', 'f' ] from rfl] at hmem
  have hs := markerSplitRight _ _ _ _ hnm1 hnm2 hd'
  exact ⟨String.ext hs.1, repr_inj k1 k2 (String.ext (List.append_cancel_right hs.2))⟩

theorem endsWithPdf_append (b : String) : endsWithPdf (b ++ ".pdf") = true := by
  have hd : (b ++ ".pdf").data = b.data ++ [ '.', 'p', 'd', 'f' ] := by
    rw [data_append]
  rw [endsWithPdf, hd]
  simp

theorem stripPdf_append (b : String) : stripPdf (b ++ ".pdf") = b := by
  rw [stripPdf, if_pos (endsWithPdf_append b)]
  have hd : (b ++ ".pdf").data = b.data ++ [ '.', 'p', 'd', 'f' ] := by
    rw [data_append]
  apply String.ext
  rw [hd]
  simp

theorem endsWithPdf_decomp (s : String) (h : endsWithPdf s = true) :
    s = stripPdf s ++ ".pdf" := by
  rw [endsWithPdf, decide_eq_true_eq] at h
  have hsplit : s.data.reverse = [ 'f', 'd', 'p', '.' ] ++ s.data.reverse.drop 4 := by
    conv_lhs => rw [← List.take_append_drop 4 s.data.reverse]
    rw [h]
  have hdata : s.data = (s.data.reverse.drop 4).reverse ++ [ '.', 'p', 'd', 'f' ] := by
    have := congrArg List.reverse hsplit
    simpa using this
  have hstrip : stripPdf s = String.mk (s.data.reverse.drop 4).reverse := by
    rw [stripPdf, if_pos (by rw [endsWithPdf, decide_eq_true_eq]; exact h)]
    congr 1
    conv_lhs => rw [hdata]
    have hlen : (((s.data.reverse.drop 4).reverse ++ [ '.', 'p', 'd', 'f' ]).length - 4)
        = (s.data.reverse.drop 4).reverse.length := by
      simp
    rw [hlen, List.take_left]
  apply String.ext
  rw [hstrip, data_append]
  conv_lhs => rw [hdata]

/-! ### Archive-builder lemmas -/

theorem zipLoop_snd : ∀ (files : List ProcessedFile) (counts : String → Nat),
    (zipLoop files counts).map Prod.snd = files.map (fun r => r.originalFile) := by
  intro files
  induction files with
  | nil => intro counts; rfl
  | cons r rest ih =>
    intro counts
    simp only [zipLoop]
    by_cases h0 : counts r.newName ≠ 0
    · rw [if_pos h0]
      simp [ih]
    · rw [if_neg h0]
      simp [ih]

theorem zipLoop_eq_spec : ∀ (files : List ProcessedFile) (pre : List String)
    (counts : String → Nat), (∀ n, counts n = pre.count n) →
    zipLoop files counts = specNames pre files := by
  intro files
  induction files with
  | nil => intro pre counts _; rfl
  | cons r rest ih =>
    intro pre counts h
    obtain rfl : counts = fun n => List.count n pre := funext h
    simp only [zipLoop, specNames]
    have hcount : ∀ n : String,
        (if n = r.newName then List.count r.newName pre + 1 else List.count n pre)
          = List.count n (pre ++ [r.newName]) := by
      intro n
      by_cases hn : n = r.newName
      · subst hn
        rw [if_pos rfl, List.count_append, List.count_singleton, if_pos (by simp)]
      · have hne : ¬ ((r.newName == n) = true) := by
          simp only [beq_iff_eq]
          exact fun hx => hn hx.symm
        rw [List.count_append, List.count_singleton, if_neg hne, if_neg hn]
        omega
    have hcfun :
        (fun n => if n = r.newName then List.count r.newName pre + 1 else List.count n pre)
          = fun n => List.count n (pre ++ [r.newName]) := funext hcount
    by_cases h0 : List.count r.newName pre = 0
    · rw [if_neg (by simp [h0]), specName, if_pos h0]
      have hone : (fun n => if n = r.newName then 1 else List.count n pre)
          = fun n => List.count n (pre ++ [r.newName]) := by
        funext n
        rw [← hcount n, h0]
      rw [hone]
      exact congrArg _ (ih _ _ (fun n => rfl))
    · rw [if_pos h0, specName, if_neg h0]
      rw [hcfun]
      exact congrArg _ (ih _ _ (fun n => rfl))

/-- The archive builder implements the spec's count-based collision rule. -/
theorem buildArchive_eq_spec (files : List ProcessedFile) :
    buildArchive files = specNames [] files :=
  zipLoop_eq_spec files [] (fun _ => 0) (by simp)

theorem specNames_fst : ∀ (files : List ProcessedFile) (pre : List String),
    (specNames pre files).map Prod.fst = specNameList pre (files.map fun r => r.newName) := by
  intro files
  induction files with
  | nil => intro pre; rfl
  | cons r rest ih =>
    intro pre
    simp only [specNames, specNameList, List.map_cons, List.map]
    rw [ih]

theorem specNameList_length : ∀ (names : List String) (pre : List String),
    (specNameList pre names).length = names.length := by
  intro names
  induction names with
  | nil => intro pre; rfl
  | cons n rest ih => intro pre; simp [specNameList, ih]

theorem specNameList_get : ∀ (names : List String) (pre : List String) (i : Nat)
    (hi : i < names.length) (h2 : i < (specNameList pre names).length),
    (specNameList pre names).get ⟨i, h2⟩ = specName (pre ++ names.take i) (names.get ⟨i, hi⟩) := by
  intro names
  induction names with
  | nil => intro pre i hi h2; exact absurd hi (by simp)
  | cons n rest ih =>
    intro pre i hi h2
    match i with
    | 0 => simp [specNameList]
    | i + 1 =>
      have hi' : i < rest.length := by simpa using hi
      have h2' : i < (specNameList (pre ++ [n]) rest).length := by
        rw [specNameList_length]; exact hi'
      simp only [specNameList, List.get_cons_succ, List.take_succ_cons]
      rw [ih (pre ++ [n]) i hi' h2']
      simp [List.append_assoc]

/-- Two positions of the eligible sequence receive different final names,
provided every computed name carries the `.pdf` extension and no computed
name textually equals the suffixed form of another computed name. -/
theorem specName_pair_ne (names : List String)
    (H1 : ∀ n ∈ names, endsWithPdf n = true)
    (H2 : ∀ n ∈ names, ∀ m ∈ names, ∀ k, 1 ≤ k → k < names.length →
            n ≠ stripPdf m ++ "_" ++ Nat.repr k ++ ".pdf")
    (i j : Nat) (hi : i < names.length) (hj : j < names.length) (hij : i < j) :
    specName (names.take i) (names.get ⟨i, hi⟩)
      ≠ specName (names.take j) (names.get ⟨j, hj⟩) := by
  have hmi : names.get ⟨i, hi⟩ ∈ names := List.get_mem names i hi
  have hmj : names.get ⟨j, hj⟩ ∈ names := List.get_mem names j hj
  have hcile : List.count (names.get ⟨i, hi⟩) (names.take i) < names.length := by
    have h1 := List.count_le_length (names.get ⟨i, hi⟩) (names.take i)
    rw [List.length_take] at h1
    omega
  have hcjle : List.count (names.get ⟨j, hj⟩) (names.take j) < names.length := by
    have h1 := List.count_le_length (names.get ⟨j, hj⟩) (names.take j)
    rw [List.length_take] at h1
    omega
  by_cases h0i : List.count (names.get ⟨i, hi⟩) (names.take i) = 0
    <;> by_cases h0j : List.count (names.get ⟨j, hj⟩) (names.take j) = 0
  · rw [specName, if_pos h0i, specName, if_pos h0j]
    intro heq
    have hmem : names.get ⟨j, hj⟩ ∈ names.take j := by
      rw [← heq, List.get_take (L := names) hi hij]
      exact List.get_mem _ _ _
    have := List.count_pos_iff.mpr hmem
    omega
  · rw [specName, if_pos h0i, specName, if_neg h0j]
    exact H2 _ hmi _ hmj _ (Nat.one_le_iff_ne_zero.mpr h0j) hcjle
  · rw [specName, if_neg h0i, specName, if_pos h0j]
    exact Ne.symm (H2 _ hmj _ hmi _ (Nat.one_le_iff_ne_zero.mpr h0i) hcile)
  · rw [specName, if_neg h0i, specName, if_neg h0j]
    intro heq
    obtain ⟨hb, hk⟩ := suffix_inj _ _ _ _ heq
    have hnames : names.get ⟨i, hi⟩ = names.get ⟨j, hj⟩ := by
      rw [endsWithPdf_decomp _ (H1 _ hmi), endsWithPdf_decomp _ (H1 _ hmj), hb]
    rw [← hnames] at h0j hk
    have hsucc : List.count (names.get ⟨i, hi⟩) (names.take (i + 1))
        = List.count (names.get ⟨i, hi⟩) (names.take i) + 1 := by
      rw [List.take_succ, List.getElem?_eq_getElem hi, List.count_append]
      have hgi : (some names[i]).toList = [names.get ⟨i, hi⟩] := rfl
      rw [hgi, List.count_singleton, if_pos (by simp)]
    have hsub : List.count (names.get ⟨i, hi⟩) (names.take (i + 1))
        ≤ List.count (names.get ⟨i, hi⟩) (names.take j) := by
      have hst : (names.take (i + 1)).Sublist (names.take j) := by
        have he : names.take (i + 1) = (names.take j).take (i + 1) := by
          rw [List.take_take]
          congr 1
          omega
        rw [he]
        exact List.take_sublist _ _
      exact hst.count_le _
    omega

/-! ### Processing-loop lemmas -/

theorem processLoop_fst (ex : FileObj → Except String String)
    (gn : String → Except String String) :
    ∀ (l : List ProcessedFile) (logs : List LogEntry),
      (processLoop ex gn l logs).1 = l.map (processOne ex gn) := by
  intro l
  induction l with
  | nil => intro logs; rfl
  | cons r rest ih =>
    intro logs
    simp only [processLoop, List.map_cons]
    rw [ih]

theorem handleDownloadZip_results (zf : Option String) (s : AppState) :
    ((handleDownloadZip zf s).1).results = s.results := by
  simp only [handleDownloadZip]
  split
  · rfl
  · split <;> rfl

theorem processFiles_results (ex : FileObj → Except String String)
    (gn : String → Except String String) (zf : Option String) (po : Bool) (s : AppState)
    (h0 : s.results.length ≠ 0) :
    ((processFiles ex gn zf po s).1).results = s.results.map (processOne ex gn) := by
  simp only [processFiles]
  rw [if_neg h0]
  cases po
  · rw [if_neg (by simp)]
    rw [handleDownloadZip_results]
    exact processLoop_fst ex gn s.results _
  · rw [if_pos rfl]
    exact processLoop_fst ex gn s.results _

theorem processOne_status (ex : FileObj → Except String String)
    (gn : String → Except String String) (r : ProcessedFile) :
    (processOne ex gn r).status = FileProcessStatus.Success ∨
    (processOne ex gn r).status = FileProcessStatus.Error ∨
    (processOne ex gn r).status = FileProcessStatus.NoMatch := by
  unfold processOne runPipeline
  cases hex : ex (resetRecord r).originalFile with
  | error e => simp
  | ok text =>
    dsimp only
    by_cases ht : text = ""
    · rw [if_pos ht]; simp
    · rw [if_neg ht]
      cases hgn : gn text with
      | error e => simp
      | ok nm =>
        dsimp only
        by_cases hnm : nm = ""
        · rw [if_pos hnm]; simp
        · rw [if_neg hnm]; simp

theorem append_pdf_ne (b : String) : b ++ ".pdf" ≠ "" := by
  intro h
  have hd := congrArg String.data h
  rw [data_append] at hd
  simp [show (".pdf" : String).data = [ '.', 'p', 'd', 'f' ] from rfl] at hd

theorem processOne_success_iff (ex : FileObj → Except String String)
    (gn : String → Except String String) (r : ProcessedFile) :
    (processOne ex gn r).status = FileProcessStatus.Success
      ↔ (processOne ex gn r).newName ≠ "" := by
  unfold processOne runPipeline
  cases hex : ex (resetRecord r).originalFile with
  | error e => simp [resetRecord]
  | ok text =>
    dsimp only
    by_cases ht : text = ""
    · rw [if_pos ht]; simp [resetRecord]
    · rw [if_neg ht]
      cases hgn : gn text with
      | error e => simp [resetRecord]
      | ok nm =>
        dsimp only
        by_cases hnm : nm = ""
        · rw [if_pos hnm]; simp [resetRecord]
        · rw [if_neg hnm]; simp [resetRecord, append_pdf_ne nm]

theorem processOne_det (ex : FileObj → Except String String)
    (gn : String → Except String String) (r r' : ProcessedFile)
    (hf : r.originalFile = r'.originalFile) :
    (processOne ex gn r).status = (processOne ex gn r').status ∧
    (processOne ex gn r).newName = (processOne ex gn r').newName := by
  unfold processOne runPipeline
  have e1 : (resetRecord r).originalFile = (resetRecord r').originalFile := by
    simp [resetRecord, hf]
  rw [e1]
  cases hex : ex (resetRecord r').originalFile with
  | error e => simp [resetRecord]
  | ok text =>
    dsimp only
    by_cases ht : text = ""
    · simp only [if_pos ht]; simp [resetRecord]
    · simp only [if_neg ht]
      cases hgn : gn text with
      | error e => simp [resetRecord]
      | ok nm =>
        dsimp only
        by_cases hnm : nm = ""
        · simp only [if_pos hnm]; simp [resetRecord]
        · simp only [if_neg hnm]; simp [resetRecord]

/-- Exhaustive description of one loop iteration's outcome. -/
theorem processOne_cases (ex : FileObj → Except String String)
    (gn : String → Except String String) (r : ProcessedFile) :
    (∃ e, processOne ex gn r
        = { resetRecord r with status := FileProcessStatus.Error, message := some e }) ∨
    processOne ex gn r = { resetRecord r with status := FileProcessStatus.NoMatch } ∨
    (∃ nm, nm ≠ "" ∧ processOne ex gn r
        = { resetRecord r with newName := nm ++ ".pdf", status := FileProcessStatus.Success }) := by
  unfold processOne runPipeline
  cases hex : ex (resetRecord r).originalFile with
  | error e => exact Or.inl ⟨e, rfl⟩
  | ok text =>
    dsimp only
    by_cases ht : text = ""
    · rw [if_pos ht]
      exact Or.inl ⟨"Could not extract text from PDF.", rfl⟩
    · rw [if_neg ht]
      cases hgn : gn text with
      | error e => exact Or.inl ⟨e, rfl⟩
      | ok nm =>
        dsimp only
        by_cases hnm : nm = ""
        · rw [if_pos hnm]
          exact Or.inr (Or.inl rfl)
        · rw [if_neg hnm]
          exact Or.inr (Or.inr ⟨nm, hnm, rfl⟩)

theorem processOne_message (ex : FileObj → Except String String)
    (gn : String → Except String String) (r : ProcessedFile)
    (h : (processOne ex gn r).status = FileProcessStatus.Success ∨
         (processOne ex gn r).status = FileProcessStatus.NoMatch) :
    (processOne ex gn r).message = r.message := by
  rcases processOne_cases ex gn r with ⟨e, hcase⟩ | hcase | ⟨nm, hnm, hcase⟩
  · rw [hcase] at h
    simp at h
  · rw [hcase]
    simp [resetRecord]
  · rw [hcase]
    simp [resetRecord]

theorem archiveNames_length (files : List ProcessedFile) :
    ((buildArchive files).map Prod.fst).length = files.length := by
  rw [buildArchive_eq_spec, specNames_fst, specNameList_length, List.length_map]

/-! ### Claims -/

/-- C1 (amended).  The archive builder processes every Success record
(`handleDownloadZip` with a working zip library produces exactly the
`buildArchive` of the Success records, in order, payloads preserved), and
`buildArchive` implements the spec's deterministic count-based collision
rule (`specNames`: the first occurrence of a computed name keeps the bare
name, the k-th subsequent duplicate gets `_k` before the extension).  The
final names are pairwise distinct provided every computed name ends in
".pdf" and no computed name textually equals the `_k`-suffixed form of
another computed name; without that proviso distinctness can fail (see the
counterexample). -/
theorem archive_collision_resolution (s : AppState)
    (hne : successRecords s ≠ [])
    (H1 : ∀ r ∈ successRecords s, endsWithPdf r.newName = true)
    (H2 : ∀ r ∈ successRecords s, ∀ m ∈ successRecords s, ∀ k, 1 ≤ k →
            k < (successRecords s).length →
            r.newName ≠ stripPdf m.newName ++ "_" ++ Nat.repr k ++ ".pdf") :
    (handleDownloadZip none s).2 = some (buildArchive (successRecords s)) ∧
    buildArchive (successRecords s) = specNames [] (successRecords s) ∧
    (buildArchive (successRecords s)).map Prod.snd
      = (successRecords s).map (fun r => r.originalFile) ∧
    ((buildArchive (successRecords s)).map Prod.fst).Nodup := by
  refine ⟨?_, buildArchive_eq_spec _, zipLoop_snd _ _, ?_⟩
  · simp only [handleDownloadZip]
    rw [if_neg (by simpa [List.length_eq_zero] using hne)]
  · have hlist : (buildArchive (successRecords s)).map Prod.fst
        = specNameList [] ((successRecords s).map fun r => r.newName) := by
      rw [buildArchive_eq_spec, specNames_fst]
    rw [hlist]
    set names := (successRecords s).map fun r => r.newName with hnames
    have hlen : names.length = (successRecords s).length := List.length_map _ _
    have H1' : ∀ n ∈ names, endsWithPdf n = true := by
      intro n hn
      obtain ⟨r, hr, rfl⟩ := List.mem_map.mp hn
      exact H1 r hr
    have H2' : ∀ n ∈ names, ∀ m ∈ names, ∀ k, 1 ≤ k → k < names.length →
        n ≠ stripPdf m ++ "_" ++ Nat.repr k ++ ".pdf" := by
      intro n hn m hm k hk1 hk2
      obtain ⟨r, hr, rfl⟩ := List.mem_map.mp hn
      obtain ⟨m0, hm0, rfl⟩ := List.mem_map.mp hm
      exact H2 r hr m0 hm0 k hk1 (by omega)
    rw [List.nodup_iff_injective_get]
    intro a b heq
    rcases a with ⟨i, hi⟩
    rcases b with ⟨j, hj⟩
    have hi' : i < names.length := by
      have := hi; rwa [specNameList_length] at this
    have hj' : j < names.length := by
      have := hj; rwa [specNameList_length] at this
    rw [specNameList_get names [] i hi' hi, specNameList_get names [] j hj' hj] at heq
    simp only [List.nil_append] at heq
    by_contra hne2
    have hij : i ≠ j := by
      intro h; exact hne2 (by simp [Fin.mk.injEq, h])
    rcases Nat.lt_or_ge i j with hlt | hge
    · exact specName_pair_ne names H1' H2' i j hi' hj' hlt heq
    · have hlt : j < i := by omega
      exact specName_pair_ne names H1' H2' j i hj' hi' hlt heq.symm

/-- C1 witness: a batch of two Success records that both computed
`a.pdf`. -/
theorem archive_collision_resolution_witness :
    (handleDownloadZip none twinState).2 = some (buildArchive (successRecords twinState)) ∧
    buildArchive (successRecords twinState) = specNames [] (successRecords twinState) ∧
    (buildArchive (successRecords twinState)).map Prod.snd
      = (successRecords twinState).map (fun r => r.originalFile) ∧
    ((buildArchive (successRecords twinState)).map Prod.fst).Nodup :=
  archive_collision_resolution twinState (by decide) (by decide) (by decide)

/-- C1 counterexample: with computed names `a_1.pdf`, `a.pdf`, `a.pdf`
(two Success records resolve to the same computed name `a.pdf`), the
archive builder assigns the final names `a_1.pdf`, `a.pdf`, `a_1.pdf` —
not pairwise distinct, so under the zip library's last-write-wins
semantics the first payload is overwritten. -/
theorem archive_collision_cex :
    2 ≤ List.count "a.pdf" ((successRecords collisionState).map fun r => r.newName) ∧
    ((handleDownloadZip none collisionState).2.getD []).map Prod.fst
      = [ "a_1.pdf", "a.pdf", "a_1.pdf" ] ∧
    ¬ (((handleDownloadZip none collisionState).2.getD []).map Prod.fst).Nodup := by
  decide

/-- C2.  For a non-empty batch, the loop processes every record (the final
record list is the pointwise image of `processOne`, so a failure on one
record never prevents the later ones from being processed), and every
record ends in a terminal status: Success, Error or NoMatch — never Idle
or Processing. -/
theorem batch_terminal_statuses (ex : FileObj → Except String String)
    (gn : String → Except String String) (zf : Option String) (po : Bool)
    (s : AppState) (hne : s.results ≠ []) :
    ((processFiles ex gn zf po s).1).results = s.results.map (processOne ex gn) ∧
    ∀ r ∈ ((processFiles ex gn zf po s).1).results,
      r.status = FileProcessStatus.Success ∨ r.status = FileProcessStatus.Error ∨
      r.status = FileProcessStatus.NoMatch := by
  have h0 : s.results.length ≠ 0 := by simpa [List.length_eq_zero] using hne
  refine ⟨processFiles_results ex gn zf po s h0, ?_⟩
  intro r hr
  rw [processFiles_results ex gn zf po s h0] at hr
  obtain ⟨r0, _, rfl⟩ := List.mem_map.mp hr
  exact processOne_status ex gn r0

/-- C2 witness: a one-record batch processed with succeeding oracles. -/
theorem batch_terminal_statuses_witness :
    ((processFiles exOk gnOk none true idleState).1).results
        = idleState.results.map (processOne exOk gnOk) ∧
    ∀ r ∈ ((processFiles exOk gnOk none true idleState).1).results,
      r.status = FileProcessStatus.Success ∨ r.status = FileProcessStatus.Error ∨
      r.status = FileProcessStatus.NoMatch :=
  batch_terminal_statuses exOk gnOk none true idleState (by decide)

/-- C3.  After `processFiles` completes, a record's computed name is
non-empty exactly when its status is Success (Error and NoMatch records
keep the empty name the in-loop reset gave them; no Idle record survives
processing). -/
theorem success_iff_newName (ex : FileObj → Except String String)
    (gn : String → Except String String) (zf : Option String) (po : Bool)
    (s : AppState) :
    ∀ r ∈ ((processFiles ex gn zf po s).1).results,
      (r.status = FileProcessStatus.Success ↔ r.newName ≠ "") := by
  by_cases h0 : s.results.length = 0
  · have hres : ((processFiles ex gn zf po s).1).results = s.results := by
      simp only [processFiles]
      rw [if_pos h0]
    intro r hr
    rw [hres] at hr
    rw [List.length_eq_zero] at h0
    rw [h0] at hr
    simp at hr
  · intro r hr
    rw [processFiles_results ex gn zf po s h0] at hr
    obtain ⟨r0, _, rfl⟩ := List.mem_map.mp hr
    exact processOne_success_iff ex gn r0

/-- C3 witness: the processed record of the one-record batch. -/
theorem success_iff_newName_witness :
    ((processOne exOk gnOk (mkRecord ⟨ "doc.pdf", 7, "PAYLOAD" ⟩)).status
        = FileProcessStatus.Success
      ↔ (processOne exOk gnOk (mkRecord ⟨ "doc.pdf", 7, "PAYLOAD" ⟩)).newName ≠ "") :=
  success_iff_newName exOk gnOk none true idleState _ (by decide)

/-- C4 (amended).  Re-processing resets a record to Processing with a
cleared computed name and drives it to a fresh terminal status; the
resulting status and computed name are independent of the prior run's
status, newName and message (they depend only on the original file and
the oracle outcomes).  However, the error-message field is only
overwritten when the new outcome is Error: on a Success or NoMatch
outcome the record keeps the prior run's message (see the
counterexample), so the full record is not independent of leftover
state. -/
theorem reprocess_independent (ex : FileObj → Except String String)
    (gn : String → Except String String) (r r' : ProcessedFile)
    (hf : r.originalFile = r'.originalFile) :
    (resetRecord r).status = FileProcessStatus.Processing ∧
    (resetRecord r).newName = "" ∧
    (processOne ex gn r).status = (processOne ex gn r').status ∧
    (processOne ex gn r).newName = (processOne ex gn r').newName ∧
    ((processOne ex gn r).status = FileProcessStatus.Success ∨
     (processOne ex gn r).status = FileProcessStatus.NoMatch →
       (processOne ex gn r).message = r.message) ∧
    ((processOne ex gn r).status = FileProcessStatus.Success ∨
     (processOne ex gn r).status = FileProcessStatus.Error ∨
     (processOne ex gn r).status = FileProcessStatus.NoMatch) :=
  ⟨by simp [resetRecord], by simp [resetRecord],
   (processOne_det ex gn r r' hf).1, (processOne_det ex gn r r' hf).2,
   fun h => processOne_message ex gn r h, processOne_status ex gn r⟩

/-- C4 witness: two records over the same file, one carrying a stale
message. -/
theorem reprocess_independent_witness :
    (resetRecord staleRecord).status = FileProcessStatus.Processing ∧
    (resetRecord staleRecord).newName = "" ∧
    (processOne exOk gnOk staleRecord).status = (processOne exOk gnOk freshRecord).status ∧
    (processOne exOk gnOk staleRecord).newName = (processOne exOk gnOk freshRecord).newName ∧
    ((processOne exOk gnOk staleRecord).status = FileProcessStatus.Success ∨
     (processOne exOk gnOk staleRecord).status = FileProcessStatus.NoMatch →
       (processOne exOk gnOk staleRecord).message = staleRecord.message) ∧
    ((processOne exOk gnOk staleRecord).status = FileProcessStatus.Success ∨
     (processOne exOk gnOk staleRecord).status = FileProcessStatus.Error ∨
     (processOne exOk gnOk staleRecord).status = FileProcessStatus.NoMatch) :=
  reprocess_independent exOk gnOk staleRecord freshRecord (by decide)

/-- C4 counterexample: two records differing only in the prior run's error
message are re-processed identically by the oracles, yet yield different
records — the one that had failed keeps its stale message even though its
fresh status is Success.  The outcome is therefore not independent of the
prior run's error message. -/
theorem reprocess_cex :
    staleRecord.originalFile = freshRecord.originalFile ∧
    staleRecord.status = freshRecord.status ∧
    staleRecord.newName = freshRecord.newName ∧
    processOne exOk gnOk staleRecord ≠ processOne exOk gnOk freshRecord ∧
    (processOne exOk gnOk staleRecord).status = FileProcessStatus.Success ∧
    (processOne exOk gnOk staleRecord).message = some "old failure" ∧
    (processOne exOk gnOk freshRecord).message = none := by
  decide

/-- C5 (amended).  The identities of an uploaded batch are pairwise
distinct provided the uploaded files have pairwise distinct
(name, lastModified) pairs; the upload handler itself performs no
deduplication, so two files agreeing on both fields collide (see the
counterexample). -/
theorem upload_ids_unique (files : List FileObj) (s : AppState) (hne : files ≠ [])
    (hnd : (files.map fun f => (f.name, f.lastModified)).Nodup) :
    (((handleFilesSelected files s).results).map fun r => r.id).Nodup := by
  have hres : (handleFilesSelected files s).results = files.map mkRecord := by
    rw [handleFilesSelected, if_neg (by simpa [List.length_eq_zero] using hne)]
  rw [hres, List.map_map]
  have he : ((fun r => r.id) ∘ mkRecord)
      = (fun p : String × Nat => p.1 ++ "-" ++ Nat.repr p.2)
        ∘ fun f => (f.name, f.lastModified) := by
    funext f
    rfl
  rw [he, ← List.map_map]
  refine List.Nodup.map ?_ hnd
  intro p q hpq
  obtain ⟨h1, h2⟩ := fileId_inj p.1 q.1 p.2 q.2 hpq
  exact Prod.ext_iff.mpr ⟨h1, h2⟩

/-- C5 witness: two files with distinct (name, lastModified) pairs. -/
theorem upload_ids_unique_witness :
    (((handleFilesSelected [ ⟨ "a.pdf", 5, "P1" ⟩, ⟨ "b.pdf", 5, "P2" ⟩ ] emptyState).results).map
        fun r => r.id).Nodup :=
  upload_ids_unique _ emptyState (by decide) (by decide)

/-- C5 counterexample: two distinct files agreeing on name and
modification time receive the same identity. -/
theorem upload_ids_unique_cex :
    dupFile1 ≠ dupFile2 ∧
    ¬ (((handleFilesSelected [ dupFile1, dupFile2 ] emptyState).results).map
        fun r => r.id).Nodup := by
  decide

/-- C6.  Processing an empty batch appends exactly one error log entry and
changes nothing else: records, processing flag and everything but the log
are untouched, and no archive is produced. -/
theorem process_empty_batch (ex : FileObj → Except String String)
    (gn : String → Except String String) (zf : Option String) (po : Bool)
    (s : AppState) (h : s.results = []) :
    processFiles ex gn zf po s =
      ({ s with logs := (addLog s.logs "No files to process. Please upload PDFs first."
            LogType.error) }, none) := by
  simp only [processFiles]
  rw [if_pos (by simp [h])]

/-- C6 witness: a state with no records and a pre-existing log. -/
theorem process_empty_batch_witness :
    processFiles exOk gnOk none true emptyState =
      ({ emptyState with logs := (addLog emptyState.logs
            "No files to process. Please upload PDFs first." LogType.error) }, none) :=
  process_empty_batch exOk gnOk none true emptyState (by decide)

/-- C7.  With zero Success records the archive request only appends an
explanatory error log entry and produces no archive; otherwise the archive
is built from exactly the Success records (their payloads, in order). -/
theorem archive_eligibility (zf : Option String) (s : AppState) :
    (successRecords s = [] →
      handleDownloadZip zf s =
        ({ s with logs := (addLog s.logs
              "No files were successfully renamed to include in a ZIP." LogType.error) },
         none)) ∧
    (successRecords s ≠ [] →
      (handleDownloadZip none s).2 = some (buildArchive (successRecords s)) ∧
      (buildArchive (successRecords s)).map Prod.snd
        = (successRecords s).map fun r => r.originalFile) := by
  constructor
  · intro h
    simp only [handleDownloadZip]
    rw [if_pos (by simp [h])]
  · intro h
    refine ⟨?_, zipLoop_snd _ _⟩
    simp only [handleDownloadZip]
    rw [if_neg (by simpa [List.length_eq_zero] using h)]

/-- C7 witness: a batch whose only record failed. -/
theorem archive_eligibility_witness :
    handleDownloadZip none failedState =
      ({ failedState with logs := (addLog failedState.logs
            "No files were successfully renamed to include in a ZIP." LogType.error) },
       none) :=
  (archive_eligibility none failedState).1 (by decide)

/-- C8.  When the zip construction throws, `handleDownloadZip` appends the
progress entry and a single batch-level error entry, resets the processing
flag, produces no archive, and leaves every record (status, newName,
message) untouched. -/
theorem archive_failure_frame (s : AppState) (e : String)
    (hne : successRecords s ≠ []) :
    handleDownloadZip (some e) s =
      ({ s with
          logs := (addLog (addLog s.logs
              ("Creating ZIP archive with " ++ Nat.repr (successRecords s).length
                ++ " files...") LogType.info)
            ("Failed to create ZIP file: " ++ e) LogType.error)
          isProcessing := false }, none) ∧
    ((handleDownloadZip (some e) s).1).results = s.results ∧
    ((handleDownloadZip (some e) s).1).logs
      = s.logs ++
        [ { message := "Creating ZIP archive with " ++ Nat.repr (successRecords s).length
              ++ " files...", type := LogType.info },
          { message := "Failed to create ZIP file: " ++ e, type := LogType.error } ] ∧
    (handleDownloadZip (some e) s).2 = none := by
  have hmain : handleDownloadZip (some e) s =
      ({ s with
          logs := (addLog (addLog s.logs
              ("Creating ZIP archive with " ++ Nat.repr (successRecords s).length
                ++ " files...") LogType.info)
            ("Failed to create ZIP file: " ++ e) LogType.error)
          isProcessing := false }, none) := by
    simp only [handleDownloadZip]
    rw [if_neg (by simpa [List.length_eq_zero] using hne)]
  refine ⟨hmain, ?_, ?_, ?_⟩
  · rw [hmain]
  · rw [hmain]
    simp [addLog]
  · rw [hmain]

/-- C8 witness: a two-record Success batch with a throwing zip library. -/
theorem archive_failure_frame_witness :
    handleDownloadZip (some "boom") twinState =
      ({ twinState with
          logs := (addLog (addLog twinState.logs
              ("Creating ZIP archive with " ++ Nat.repr (successRecords twinState).length
                ++ " files...") LogType.info)
            ("Failed to create ZIP file: " ++ "boom") LogType.error)
          isProcessing := false }, none) ∧
    ((handleDownloadZip (some "boom") twinState).1).results = twinState.results ∧
    ((handleDownloadZip (some "boom") twinState).1).logs
      = twinState.logs ++
        [ { message := "Creating ZIP archive with "
              ++ Nat.repr (successRecords twinState).length ++ " files...",
            type := LogType.info },
          { message := "Failed to create ZIP file: " ++ "boom", type := LogType.error } ] ∧
    (handleDownloadZip (some "boom") twinState).2 = none :=
  archive_failure_frame twinState "boom" (by decide)

/-- C9.  Every record that reaches Success got its computed name by
appending ".pdf" to the (non-empty) candidate returned by the naming
strategy, so the name always ends in ".pdf", whatever the strategy
returned. -/
theorem success_name_has_pdf (ex : FileObj → Except String String)
    (gn : String → Except String String) (r : ProcessedFile)
    (h : (processOne ex gn r).status = FileProcessStatus.Success) :
    ∃ b : String, b ≠ "" ∧ (processOne ex gn r).newName = b ++ ".pdf" ∧
      endsWithPdf (processOne ex gn r).newName = true := by
  rcases processOne_cases ex gn r with ⟨e, hcase⟩ | hcase | ⟨nm, hnm, hcase⟩
  · rw [hcase] at h
    simp at h
  · rw [hcase] at h
    simp at h
  · rw [hcase]
    exact ⟨nm, hnm, rfl, endsWithPdf_append nm⟩

/-- C9 witness: a record processed to Success by the concrete oracles. -/
theorem success_name_has_pdf_witness :
    ∃ b : String, b ≠ "" ∧
      (processOne exOk gnOk freshRecord).newName = b ++ ".pdf" ∧
      endsWithPdf (processOne exOk gnOk freshRecord).newName = true :=
  success_name_has_pdf exOk gnOk freshRecord (by decide)

/-- C10.  Selecting zero files is a no-op; selecting one or more files
replaces the whole batch with fresh Idle records (empty computed name, no
message) and resets the log to the single load message. -/
theorem upload_replaces_batch (files : List FileObj) (s : AppState) :
    (files = [] → handleFilesSelected files s = s) ∧
    (files ≠ [] →
      handleFilesSelected files s =
        { s with
            results := files.map mkRecord
            logs := [ { message := "Loaded " ++ Nat.repr files.length
                ++ " PDF file(s). Ready for processing.", type := LogType.info } ] } ∧
      ∀ r ∈ (handleFilesSelected files s).results,
        r.status = FileProcessStatus.Idle ∧ r.newName = "" ∧ r.message = none) := by
  constructor
  · intro h
    rw [handleFilesSelected, if_pos (by simp [h])]
  · intro h
    have hne0 : ¬ files.length = 0 := by simpa [List.length_eq_zero] using h
    have hmain : handleFilesSelected files s =
        { s with
            results := files.map mkRecord
            logs := [ { message := "Loaded " ++ Nat.repr files.length
                ++ " PDF file(s). Ready for processing.", type := LogType.info } ] } := by
      rw [handleFilesSelected, if_neg hne0]
    refine ⟨hmain, ?_⟩
    intro r hr
    rw [hmain] at hr
    obtain ⟨f, _, rfl⟩ := List.mem_map.mp hr
    simp [mkRecord]

/-- C10 witness: a one-file upload over a state with an old log entry. -/
theorem upload_replaces_batch_witness :
    handleFilesSelected [ dupFile1 ] emptyState =
      { emptyState with
          results := [ dupFile1 ].map mkRecord
          logs := [ { message := "Loaded " ++ Nat.repr ([ dupFile1 ] : List FileObj).length
              ++ " PDF file(s). Ready for processing.", type := LogType.info } ] } ∧
    ∀ r ∈ (handleFilesSelected [ dupFile1 ] emptyState).results,
      r.status = FileProcessStatus.Idle ∧ r.newName = "" ∧ r.message = none :=
  (upload_replaces_batch [ dupFile1 ] emptyState).2 (by decide)

end PdfRenamer
